import Mathlib

/-!
Verification of the input-to-focus decision engine of the bevy-egui-kbgp
repository, shallowly embedded from the Rust sources:
  - src/navigation.rs: the input timing controller, the directional focus
    resolver of KbgpNavigationState::move_focus, the per-frame prepare step
    and the press/hold/release state machine (PendingReleaseState);
  - src/pending_input.rs: the chord-capture state KbgpPendingInputState and
    KbgpInputManualHandle::process_new_input;
  - src/lib.rs: the kbgp_clear_input, kbgp_user_action and
    kbgp_click_released query surface.
Screen coordinates and timestamps (f32/f64 in the source) are embedded as
integers: every operation involved is an addition, a subtraction, a
negation or an order comparison, so the embedding is exact on
integer-valued inputs and the general theorems quantify over all of
them.
Type-erased user-action payloads (Box of dyn Any) are embedded as Nat
identities, and egui ids as Nat.
-/

namespace KbgpSpec

/-- egui::Pos2, with integer coordinates. -/
structure Pos where
  x : ℤ
  y : ℤ
deriving DecidableEq

/-- egui::Rect, a min corner and a max corner. -/
structure Rect where
  min : Pos
  max : Pos
deriving DecidableEq

/-- Comparison of two coordinates, the total-order case of f32 partial
comparison (rect coordinates are never NaN in the model). -/
def qcmp (a b : ℤ) : Ordering :=
  if a < b then .lt else if b < a then .gt else .eq

/-- Lexicographic comparison of pairs, as Rust derives it for 2-tuples. -/
def qcmp2 (p q : ℤ × ℤ) : Ordering :=
  match qcmp p.1 q.1 with
  | .eq => qcmp p.2 q.2
  | o => o

/-- Lexicographic order on coordinate pairs, used to state minimality of
the node picked when nothing is focused. -/
def lexLe (p q : ℤ × ℤ) : Prop :=
  p.1 < q.1 ∨ (p.1 = q.1 ∧ p.2 ≤ q.2)

/-- Rust Iterator::min_by: the first element that is minimal for the
comparator (a later element replaces the accumulator only when strictly
smaller). -/
def minByFirst (c : α → α → Ordering) : List α → Option α
  | [] => none
  | x :: xs => some (xs.foldl (fun acc y => if c y acc = .lt then y else acc) x)

/-- The u8 input bitmask of navigation.rs (INPUT_MASK_UP = 1, ... ,
INPUT_MASK_USER_ACTION = 32), embedded with one field per bit. -/
structure InputBits where
  up : Bool := false
  down : Bool := false
  left : Bool := false
  right : Bool := false
  click : Bool := false
  user : Bool := false
deriving DecidableEq

/-- The all-zero bitmask (handle.input == 0). -/
def InputBits.zero : InputBits := {}

/-- Bitwise and-not, modelling effective_input &= !self.prev_input. -/
def InputBits.andNot (a b : InputBits) : InputBits :=
  ⟨a.up && !b.up, a.down && !b.down, a.left && !b.left,
   a.right && !b.right, a.click && !b.click, a.user && !b.user⟩

/-- Projection of one bit of the mask; 0 = up, 1 = down, 2 = left,
3 = right, 4 = click, 5 = user action. -/
def InputBits.getBit (i : Fin 6) (b : InputBits) : Bool :=
  match i with
  | 0 => b.up
  | 1 => b.down
  | 2 => b.left
  | 3 => b.right
  | 4 => b.click
  | 5 => b.user

/-- The coordinate transform of the NavigateUp arm of prepare:
negate both axes. -/
def upTransform (p : Pos) : Pos := ⟨-p.x, -p.y⟩

/-- The coordinate transform of the NavigateDown arm of prepare:
the identity. -/
def downTransform (p : Pos) : Pos := p

/-- The coordinate transform of the NavigateLeft arm of prepare:
transpose with negation. -/
def leftTransform (p : Pos) : Pos := ⟨-p.y, -p.x⟩

/-- The coordinate transform of the NavigateRight arm of prepare:
transpose. -/
def rightTransform (p : Pos) : Pos := ⟨p.y, p.x⟩

/-- transform_rect_downward of KbgpNavigationState::move_focus: transform
both corners and swap coordinates so that min is again the top-left. -/
def transformRectDownward (f : Pos → Pos) (r : Rect) : Rect :=
  let pmin := f r.min
  let pmax := f r.max
  let lr := if pmax.x < pmin.x then (pmax.x, pmin.x) else (pmin.x, pmax.x)
  let tb := if pmax.y < pmin.y then (pmax.y, pmin.y) else (pmin.y, pmax.y)
  ⟨⟨lr.1, tb.1⟩, ⟨lr.2, tb.2⟩⟩

/-- InfoForComparison of KbgpNavigationState::move_focus. -/
structure InfoForComparison where
  min_y : ℤ
  max_y : ℤ
  x_drift : ℤ
deriving DecidableEq

/-- The comparator passed to min_by in KbgpNavigationState::move_focus. -/
def cmpInfo (a b : InfoForComparison) : Ordering :=
  if a.max_y < b.min_y ∧ b.max_y < a.min_y then
    qcmp a.x_drift b.x_drift
  else
    qcmp (a.min_y + a.x_drift) (b.min_y + b.x_drift)

/-- common.nodes.get on the registry, embedded as a list of id-rect
pairs. -/
def lookupRect (nodes : List (Nat × Rect)) (i : Nat) : Option Rect :=
  (nodes.find? (fun p => decide (p.1 = i))).map (fun p => p.2)

/-- The filter_map of move_focus: drop the focused node itself, drop
candidates with min_y_diff < 0, and compute InfoForComparison (min_y,
max_y and x_drift exactly as in the source). -/
def candidatesFor (transformed : List (Nat × Rect)) (fid : Nat)
    (frect : Rect) : List (Nat × InfoForComparison) :=
  transformed.filterMap (fun p =>
    if p.1 = fid then none
    else
      let min_y_diff := p.2.min.y - frect.max.y
      if min_y_diff < 0 then none
      else some (p.1,
        { min_y := min_y_diff
          max_y := p.2.max.y - frect.max.y
          x_drift :=
            if frect.max.x < p.2.min.x then p.2.max.x - frect.min.x
            else if p.2.max.x < frect.min.x then frect.max.x - p.2.min.x
            else 0 }))

/-- The key of the "nothing is focused" branch of move_focus:
(rect.min.y, rect.min.x). -/
def rectKey (r : Rect) : ℤ × ℤ := (r.min.y, r.min.x)

/-- KbgpNavigationState::move_focus. The focused node id is move_from
when present, otherwise the toolkit's current focus (memory.focused). -/
def moveFocus (nodes : List (Nat × Rect)) (move_from : Option Nat)
    (memory_focused : Option Nat) (f : Pos → Pos) : Option Nat :=
  let transformed := nodes.map (fun p => (p.1, transformRectDownward f p.2))
  let focused_node_id :=
    match move_from with
    | some i => some i
    | none => memory_focused
  match focused_node_id with
  | some fid =>
    match lookupRect nodes fid with
    | none => some fid
    | some frect0 =>
      let frect := transformRectDownward f frect0
      (minByFirst (fun a b => cmpInfo a.2 b.2)
        (candidatesFor transformed fid frect)).map (fun p => p.1)
  | none =>
    (minByFirst (fun a b => qcmp2 a.2 b.2)
      (transformed.map (fun p => (p.1, rectKey p.2)))).map (fun p => p.1)

/-- The edge/repeat timing step of KbgpNavigationState::prepare (the head
of the `if handle.input != 0` block): from the previous raw bitmask and the
next-allowed timestamp, yield the effective bitmask and the updated
timestamp.  When the raw input is zero the whole block is skipped, so
nothing is effective and the timestamp is untouched. -/
def timingTick (prev_input : InputBits) (next_navigation : ℤ)
    (input : InputBits) (secs_after_first_input secs_between_inputs now : ℤ) :
    InputBits × ℤ :=
  if input = InputBits.zero then (InputBits.zero, next_navigation)
  else if prev_input ≠ input then
    (input.andNot prev_input, now + secs_after_first_input)
  else if now < next_navigation then (InputBits.zero, next_navigation)
  else (input, now + secs_between_inputs)

/-- PendingReleaseState of navigation.rs.  The boxed user-action payloads
are embedded as Nat identities. -/
inductive PendingReleaseState where
  | Idle
  | NodeHeld (id : Nat) (is_user_action : Bool) (user_action : Option Nat)
  | NodeHoldReleased (id : Nat) (user_action : Option Nat)
  | GloballyHeld (user_action : Option Nat)
  | GlobalHoldReleased (user_action : Nat)
  | Invalidated (cooldown_frame : Bool)
deriving DecidableEq

/-- The per-frame update of the hold/release machine: the
`match &mut self.pending_release_state` block at the end of
KbgpNavigationState::prepare, given the raw (unthrottled) bitmask of the
frame, the user action taken from the previous frame, and the toolkit's
current focus. -/
def stepPendingRelease (st : PendingReleaseState) (input : InputBits)
    (prev_user_action : Option Nat) (current_focus : Option Nat) :
    PendingReleaseState :=
  match st with
  | .Idle =>
    match input.click, input.user with
    | false, false => .Idle
    | true, false =>
      match current_focus with
      | some id => .NodeHeld id false prev_user_action
      | none => .Invalidated false
    | false, true =>
      match current_focus with
      | some id => .NodeHeld id true prev_user_action
      | none => .GloballyHeld prev_user_action
    | true, true => .Invalidated false
  | .NodeHeld id is_user_action user_action =>
    match input.click, input.user with
    | false, false =>
      if current_focus = some id then
        .NodeHoldReleased id (user_action.or prev_user_action)
      else
        .Idle
    | true, false =>
      if is_user_action then .Invalidated false
      else .NodeHeld id is_user_action user_action
    | false, true =>
      if !is_user_action then .Invalidated false
      else if prev_user_action.isSome then
        .NodeHeld id is_user_action prev_user_action
      else .NodeHeld id is_user_action user_action
    | true, true => .Invalidated false
  | .NodeHoldReleased _ _ => .Idle
  | .GloballyHeld user_action =>
    match input.click, input.user with
    | false, false =>
      match user_action.or prev_user_action with
      | some ua => .GlobalHoldReleased ua
      | none => .Idle
    | false, true =>
      if prev_user_action.isSome then .GloballyHeld prev_user_action
      else .GloballyHeld user_action
    | _, _ => .Invalidated false
  | .GlobalHoldReleased _ => .Idle
  | .Invalidated cooldown_frame =>
    if cooldown_frame then .Invalidated false
    else if !input.click then .Idle
    else .Invalidated false

/-- KbgpNavigationState of navigation.rs (payloads and egui ids as
Nat). -/
structure KbgpNavigationState where
  prev_input : InputBits := InputBits.zero
  pending_release_state : PendingReleaseState := .Idle
  next_navigation : ℤ := 0
  user_action : Option Nat := none
  focus_label : Option Nat := none
  next_frame_focus_label : Option Nat := none
  focus_on : Option Nat := none
  last_focus : Option Nat := none
  mouse_was_last_on : Option Nat := none
deriving DecidableEq

/-- The observable outcome of one KbgpNavigationState::prepare call: the
new state, the focus-move request issued (if any), the synthetic Enter
click pushed to egui (if any), and the effective bitmask of the frame. -/
structure PrepareOutput where
  state : KbgpNavigationState
  move_focus_to : Option Nat
  click_event : Bool
  effective_input : InputBits

/-- The vertical dispatch of prepare: `match effective_input &
INPUT_MASK_VERTICAL`, acting only when exactly one of up/down is set. -/
def verticalFocusDispatch (eff : InputBits) (nodes : List (Nat × Rect))
    (memory_focused : Option Nat) : Option Nat :=
  match eff.up, eff.down with
  | true, false => moveFocus nodes none memory_focused upTransform
  | false, true => moveFocus nodes none memory_focused downTransform
  | _, _ => none

/-- The horizontal dispatch of prepare: `match effective_input &
INPUT_MASK_HORIZONTAL`, threading the vertical stage's result as
move_from and keeping it unchanged when not exactly one of left/right is
set. -/
def horizontalFocusDispatch (eff : InputBits) (nodes : List (Nat × Rect))
    (memory_focused : Option Nat) (move_focus_to : Option Nat) : Option Nat :=
  match eff.left, eff.right with
  | true, false => moveFocus nodes move_focus_to memory_focused leftTransform
  | false, true => moveFocus nodes move_focus_to memory_focused rightTransform
  | _, _ => move_focus_to

/-- KbgpNavigationState::prepare, with the node registry, the toolkit
focus, the raw bitmask and user-action payload gathered by the prepare
delegate, the two delay settings and the frame timestamp as explicit
inputs. -/
def KbgpNavigationState.prepare (s : KbgpNavigationState)
    (nodes : List (Nat × Rect)) (memory_focused : Option Nat)
    (handle_input : InputBits) (handle_user_action : Option Nat)
    (secs_after_first_input secs_between_inputs now : ℤ) : PrepareOutput :=
  let prev_user_action := s.user_action
  let tick := timingTick s.prev_input s.next_navigation handle_input
    secs_after_first_input secs_between_inputs now
  let effective := tick.1
  let move_focus_v := verticalFocusDispatch effective nodes memory_focused
  let move_focus_to := horizontalFocusDispatch effective nodes memory_focused move_focus_v
  { state :=
      { s with
        prev_input := handle_input
        next_navigation := tick.2
        user_action := if effective.user then handle_user_action else none
        pending_release_state :=
          stepPendingRelease s.pending_release_state handle_input
            prev_user_action memory_focused }
    move_focus_to := move_focus_to
    click_event := effective.click
    effective_input := effective }

/-- kbgp_clear_input of lib.rs, restricted to the navigation state it
mutates: drop the stored user action and invalidate the hold/release
machine with the cooldown flag set. -/
def kbgpClearInput (s : KbgpNavigationState) : KbgpNavigationState :=
  { s with user_action := none, pending_release_state := .Invalidated true }

/-- The context-wide kbgp_user_action query of lib.rs (the downcast always
succeeds in the model, payload types being collapsed to Nat). -/
def kbgpUserAction (s : KbgpNavigationState) : Option Nat :=
  s.user_action

/-- The state-machine part of kbgp_click_released of lib.rs: true exactly
when the machine is NodeHoldReleased with no user-action payload for this
very node (the mouse-hover fallback path is outside the model). -/
def kbgpClickReleased (s : KbgpNavigationState) (self_id : Nat) : Bool :=
  match s.pending_release_state with
  | .NodeHoldReleased id none => id = self_id
  | _ => false

/-- KbgpInput of lib.rs.  Key codes, mouse buttons, gamepad entities, axes
and buttons are opaque to the capture logic and embedded as Nat. -/
inductive KbgpInput where
  | Keyboard (key : Nat)
  | MouseButton (button : Nat)
  | MouseWheelUp
  | MouseWheelDown
  | MouseWheelLeft
  | MouseWheelRight
  | GamepadAxisPositive (entity : Nat) (gamepad_axis : Nat)
  | GamepadAxisNegative (entity : Nat) (gamepad_axis : Nat)
  | GamepadButton (entity : Nat) (gamepad_button : Nat)
deriving DecidableEq

/-- HashSet::remove on a set embedded as a list. -/
def setRemove (s : List KbgpInput) (x : KbgpInput) : List KbgpInput :=
  s.filter (fun y => decide (y ≠ x))

/-- HashSet::insert on a set embedded as a list. -/
def setInsert (s : List KbgpInput) (x : KbgpInput) : List KbgpInput :=
  if x ∈ s then s else x :: s

/-- KbgpPendingInputState of pending_input.rs.  The hash sets are
embedded as lists with membership semantics. -/
structure KbgpPendingInputState where
  acceptor_id : Nat
  input_this_frame : List KbgpInput := []
  ignored_input : Option (List KbgpInput) := none
  received_input : List KbgpInput := []
deriving DecidableEq

/-- KbgpPendingInputState::new. -/
def KbgpPendingInputState.new (acceptor_id : Nat) : KbgpPendingInputState :=
  { acceptor_id := acceptor_id }

/-- KbgpPendingInputState::prepare, with the frame's currently-pressed
inputs (the handle's current_input vector) as an explicit argument. -/
def KbgpPendingInputState.prepare (s : KbgpPendingInputState)
    (current_input : List KbgpInput) : KbgpPendingInputState :=
  match s.ignored_input with
  | some ignored =>
    let ignored := ignored.filter (fun i => decide (i ∈ current_input))
    { s with
      ignored_input := some ignored
      input_this_frame :=
        current_input.filter (fun i => decide (¬ i ∈ ignored)) }
  | none => { s with ignored_input := some current_input }

/-- KbgpInputManualHandle::process_new_input.  The should_add closure sees
the handle, i.e. the frame's inputs and the received set accumulated so
far. -/
def KbgpPendingInputState.process_new_input (s : KbgpPendingInputState)
    (should_add : List KbgpInput → List KbgpInput → KbgpInput → Bool) :
    KbgpPendingInputState :=
  { s with
    received_input := s.input_this_frame.foldl (fun received input =>
      if should_add s.input_this_frame received input then
        let received :=
          match input with
          | .GamepadAxisPositive entity gamepad_axis =>
            setRemove received (.GamepadAxisNegative entity gamepad_axis)
          | .GamepadAxisNegative entity gamepad_axis =>
            setRemove received (.GamepadAxisPositive entity gamepad_axis)
          | .MouseWheelUp => setRemove received .MouseWheelDown
          | .MouseWheelDown => setRemove received .MouseWheelUp
          | .MouseWheelLeft => setRemove received .MouseWheelRight
          | .MouseWheelRight => setRemove received .MouseWheelLeft
          | _ => received
        setInsert received input
      else received) s.received_input }

/-- The opposite pole of an input, when it has one: positive vs negative
pole of the same axis of the same gamepad, and opposite mouse-wheel
directions. -/
def oppositeInput : KbgpInput → Option KbgpInput
  | .GamepadAxisPositive entity gamepad_axis =>
    some (.GamepadAxisNegative entity gamepad_axis)
  | .GamepadAxisNegative entity gamepad_axis =>
    some (.GamepadAxisPositive entity gamepad_axis)
  | .MouseWheelUp => some .MouseWheelDown
  | .MouseWheelDown => some .MouseWheelUp
  | .MouseWheelLeft => some .MouseWheelRight
  | .MouseWheelRight => some .MouseWheelLeft
  | _ => none

/-- A received set is pole-consistent: it never holds an input together
with its opposite pole. -/
def noOppositePoles (s : List KbgpInput) : Prop :=
  ∀ x ∈ s, ∀ y ∈ s, oppositeInput x ≠ some y

instance noOppositePoles_decidable (s : List KbgpInput) :
    Decidable (noOppositePoles s) :=
  decidable_of_iff (∀ x ∈ s, ∀ y ∈ s, oppositeInput x ≠ some y) Iff.rfl

/-- Modelled from the spec: the x_drift the specification describes,
"0 if the rectangles overlap horizontally; otherwise the smallest
horizontal gap between them" - the gap between the facing edges.  The
source instead measures to the far edge of the candidate; this definition
exists only to compare the two. -/
def candidatesForSpecDrift (transformed : List (Nat × Rect)) (fid : Nat)
    (frect : Rect) : List (Nat × InfoForComparison) :=
  transformed.filterMap (fun p =>
    if p.1 = fid then none
    else
      let min_y_diff := p.2.min.y - frect.max.y
      if min_y_diff < 0 then none
      else some (p.1,
        { min_y := min_y_diff
          max_y := p.2.max.y - frect.max.y
          x_drift :=
            if frect.max.x < p.2.min.x then p.2.min.x - frect.max.x
            else if p.2.max.x < frect.min.x then frect.min.x - p.2.max.x
            else 0 }))

/-- Modelled from the spec: the focus resolver as the claim words it,
identical to moveFocus except that x_drift is the smallest horizontal gap
(candidatesForSpecDrift). -/
def moveFocusSpecDrift (nodes : List (Nat × Rect)) (move_from : Option Nat)
    (memory_focused : Option Nat) (f : Pos → Pos) : Option Nat :=
  let transformed := nodes.map (fun p => (p.1, transformRectDownward f p.2))
  let focused_node_id :=
    match move_from with
    | some i => some i
    | none => memory_focused
  match focused_node_id with
  | some fid =>
    match lookupRect nodes fid with
    | none => some fid
    | some frect0 =>
      let frect := transformRectDownward f frect0
      (minByFirst (fun a b => cmpInfo a.2 b.2)
        (candidatesForSpecDrift transformed fid frect)).map (fun p => p.1)
  | none =>
    (minByFirst (fun a b => qcmp2 a.2 b.2)
      (transformed.map (fun p => (p.1, rectKey p.2)))).map (fun p => p.1)

/-! Helper lemmas about the comparators and the first-minimum fold. -/

theorem qcmp_eq_lt_iff (a b : ℤ) : qcmp a b = .lt ↔ a < b := by
  unfold qcmp
  split_ifs with h1 h2 <;> simp_all

theorem qcmp_ne_lt_iff (a b : ℤ) : qcmp a b ≠ .lt ↔ b ≤ a := by
  rw [Ne, qcmp_eq_lt_iff, not_lt]

theorem qcmp_self (a : ℤ) : qcmp a a = .eq := by
  simp [qcmp]

theorem qcmp_eq_eq_iff (a b : ℤ) : qcmp a b = .eq ↔ a = b := by
  unfold qcmp
  split_ifs with h1 h2 <;> simp_all <;> linarith

theorem lexLe_refl (p : ℤ × ℤ) : lexLe p p := Or.inr ⟨rfl, le_refl _⟩

theorem lexLe_trans {p q r : ℤ × ℤ} (h1 : lexLe p q) (h2 : lexLe q r) :
    lexLe p r := by
  rcases h1 with h1 | ⟨h1, h1'⟩ <;> rcases h2 with h2 | ⟨h2, h2'⟩
  · exact Or.inl (lt_trans h1 h2)
  · exact Or.inl (h2 ▸ h1)
  · exact Or.inl (h1 ▸ h2)
  · exact Or.inr ⟨h1.trans h2, le_trans h1' h2'⟩

theorem qcmp2_lt_lexLe {p q : ℤ × ℤ} (h : qcmp2 p q = .lt) : lexLe p q := by
  unfold qcmp2 at h
  rcases h1 : qcmp p.1 q.1 with _ | _ | _ <;> rw [h1] at h
  · exact Or.inl ((qcmp_eq_lt_iff _ _).mp h1)
  · exact Or.inr ⟨(qcmp_eq_eq_iff _ _).mp h1, le_of_lt ((qcmp_eq_lt_iff _ _).mp h)⟩
  · exact absurd h (by simp)

theorem qcmp_eq_gt_iff (a b : ℤ) : qcmp a b = .gt ↔ b < a := by
  unfold qcmp
  split_ifs with h1 h2 <;> simp_all
  linarith

theorem qcmp2_ne_lt_lexLe {p q : ℤ × ℤ} (h : qcmp2 p q ≠ .lt) : lexLe q p := by
  unfold qcmp2 at h
  rcases h1 : qcmp p.1 q.1 with _ | _ | _ <;> rw [h1] at h
  · exact absurd rfl h
  · exact Or.inr ⟨((qcmp_eq_eq_iff _ _).mp h1).symm,
      (qcmp_ne_lt_iff _ _).mp h⟩
  · exact Or.inl ((qcmp_eq_gt_iff _ _).mp h1)

theorem minByFirst_none_iff (c : α → α → Ordering) (l : List α) :
    minByFirst c l = none ↔ l = [] := by
  cases l <;> simp [minByFirst]

theorem minByFirst_fold_min {α β : Type} (k : α → β) (le : β → β → Prop)
    (c : β → β → Ordering)
    (hrefl : ∀ x, le x x)
    (htrans : ∀ x y z, le x y → le y z → le x z)
    (h1 : ∀ a b, c a b = .lt → le a b)
    (h2 : ∀ a b, c a b ≠ .lt → le b a) :
    ∀ (xs : List α) (x m : α),
      xs.foldl (fun acc y => if c (k y) (k acc) = .lt then y else acc) x = m →
      m ∈ x :: xs ∧ le (k m) (k x) ∧ ∀ y ∈ xs, le (k m) (k y) := by
  intro xs
  induction xs with
  | nil =>
    intro x m hm
    simp only [List.foldl_nil] at hm
    subst hm
    exact ⟨List.mem_singleton.mpr rfl, hrefl _, by simp⟩
  | cons y ys ih =>
    intro x m hm
    simp only [List.foldl_cons] at hm
    by_cases hc : c (k y) (k x) = .lt
    · rw [if_pos hc] at hm
      obtain ⟨hmem, hle, hall⟩ := ih y m hm
      refine ⟨?_, ?_, ?_⟩
      · rcases List.mem_cons.mp hmem with h | h
        · exact h ▸ List.mem_cons_of_mem _ (List.mem_cons_self _ _)
        · exact List.mem_cons_of_mem _ (List.mem_cons_of_mem _ h)
      · exact htrans _ _ _ hle (h1 _ _ hc)
      · intro z hz
        rcases List.mem_cons.mp hz with h | h
        · exact h ▸ hle
        · exact hall z h
    · rw [if_neg hc] at hm
      obtain ⟨hmem, hle, hall⟩ := ih x m hm
      refine ⟨?_, hle, ?_⟩
      · rcases List.mem_cons.mp hmem with h | h
        · exact h ▸ List.mem_cons_self _ _
        · exact List.mem_cons_of_mem _ (List.mem_cons_of_mem _ h)
      · intro z hz
        rcases List.mem_cons.mp hz with h | h
        · exact h ▸ htrans _ _ _ hle (h2 _ _ hc)
        · exact hall z h

theorem minByFirst_min {α β : Type} (k : α → β) (le : β → β → Prop)
    (c : β → β → Ordering)
    (hrefl : ∀ x, le x x)
    (htrans : ∀ x y z, le x y → le y z → le x z)
    (h1 : ∀ a b, c a b = .lt → le a b)
    (h2 : ∀ a b, c a b ≠ .lt → le b a)
    (l : List α) (m : α)
    (hm : minByFirst (fun a b => c (k a) (k b)) l = some m) :
    m ∈ l ∧ ∀ x ∈ l, le (k m) (k x) := by
  cases l with
  | nil => simp [minByFirst] at hm
  | cons x xs =>
    simp only [minByFirst, Option.some.injEq] at hm
    obtain ⟨hmem, hle, hall⟩ :=
      minByFirst_fold_min k le c hrefl htrans h1 h2 xs x m hm
    refine ⟨hmem, ?_⟩
    intro z hz
    rcases List.mem_cons.mp hz with h | h
    · exact h ▸ hle
    · exact hall z h

theorem minByFirst_fold_congr (c1 c2 : α → α → Ordering) (S : List α) :
    ∀ (xs : List α) (x : α), x ∈ S → (∀ y ∈ xs, y ∈ S) →
      (∀ a ∈ S, ∀ b ∈ S, c1 a b = c2 a b) →
      xs.foldl (fun acc y => if c1 y acc = .lt then y else acc) x =
        xs.foldl (fun acc y => if c2 y acc = .lt then y else acc) x := by
  intro xs
  induction xs with
  | nil => intro x _ _ _; rfl
  | cons y ys ih =>
    intro x hx hys h
    have hy : y ∈ S := hys y (List.mem_cons_self _ _)
    have hxy : c1 y x = c2 y x := h y hy x hx
    simp only [List.foldl_cons, hxy]
    have hnext : (if c2 y x = .lt then y else x) ∈ S := by
      split_ifs
      · exact hy
      · exact hx
    exact ih _ hnext (fun z hz => hys z (List.mem_cons_of_mem _ hz)) h

theorem minByFirst_congr (c1 c2 : α → α → Ordering) (l : List α)
    (h : ∀ a ∈ l, ∀ b ∈ l, c1 a b = c2 a b) :
    minByFirst c1 l = minByFirst c2 l := by
  cases l with
  | nil => rfl
  | cons x xs =>
    simp only [minByFirst, Option.some.injEq]
    exact minByFirst_fold_congr c1 c2 (x :: xs) xs x
      (List.mem_cons_self _ _)
      (fun y hy => List.mem_cons_of_mem _ hy) h

theorem minByFirst_map {α β : Type} (c : β → β → Ordering) (g : α → β)
    (l : List α) :
    minByFirst c (l.map g) =
      Option.map g (minByFirst (fun a b => c (g a) (g b)) l) := by
  cases l with
  | nil => rfl
  | cons x xs =>
    simp only [List.map_cons, minByFirst, Option.map_some']
    congr 1
    rw [List.foldl_map]
    induction xs generalizing x with
    | nil => rfl
    | cons y ys ih =>
      simp only [List.foldl_cons]
      rw [← apply_ite g]
      exact ih _

/-! Lemmas about the focus resolver. -/

theorem transformRectDownward_y_sorted (f : Pos → Pos) (r : Rect) :
    (transformRectDownward f r).min.y ≤ (transformRectDownward f r).max.y := by
  unfold transformRectDownward
  dsimp only
  split_ifs <;> dsimp only <;> linarith

theorem candidatesFor_y_sorted (transformed : List (Nat × Rect)) (fid : Nat)
    (frect : Rect)
    (hs : ∀ q ∈ transformed, q.2.min.y ≤ q.2.max.y) :
    ∀ p ∈ candidatesFor transformed fid frect, p.2.min_y ≤ p.2.max_y := by
  intro p hp
  obtain ⟨a, ha, hfa⟩ := List.mem_filterMap.mp hp
  by_cases h1 : a.1 = fid
  · simp [candidatesFor, h1] at hfa
  · simp only [candidatesFor, h1, if_false] at hfa
    by_cases h2 : a.2.min.y - frect.max.y < 0
    · simp [h2] at hfa
    · simp only [h2, if_false, Option.some.injEq] at hfa
      have := hs a ha
      rw [← hfa]
      dsimp only
      linarith

theorem cmpInfo_eq_keyed {a b : InfoForComparison}
    (ha : a.min_y ≤ a.max_y) (hb : b.min_y ≤ b.max_y) :
    cmpInfo a b = qcmp (a.min_y + a.x_drift) (b.min_y + b.x_drift) := by
  unfold cmpInfo
  rw [if_neg]
  rintro ⟨h1, h2⟩
  linarith

/-- C2.  The claim as written fails on the code (see the counterexample:
x_drift of a horizontally disjoint candidate is measured to the candidate
rectangle's far edge, not to its near edge, so it is not the smallest
horizontal gap).  Amended claim: the resolver discards candidates whose
transformed top edge lies above the focused rectangle's transformed
bottom edge (min_y_diff < 0), computes min_y, max_y and x_drift where
x_drift is 0 if the rectangles overlap horizontally and otherwise the
distance from the focused rectangle's far edge to the candidate's far
edge, and selects a candidate minimizing the two-tier key; since every
candidate satisfies min_y <= max_y, the first tier of the comparison never
fires, and the selected candidate minimizes min_y + x_drift over all
surviving candidates. -/
theorem claim_C2_amended (nodes : List (Nat × Rect)) (fid : Nat)
    (frect0 : Rect) (f : Pos → Pos)
    (hlook : lookupRect nodes fid = some frect0) :
    (∀ tid, moveFocus nodes none (some fid) f = some tid →
      ∃ info, (tid, info) ∈ candidatesFor
          (nodes.map (fun p => (p.1, transformRectDownward f p.2))) fid
          (transformRectDownward f frect0) ∧
        ∀ q ∈ candidatesFor
            (nodes.map (fun p => (p.1, transformRectDownward f p.2))) fid
            (transformRectDownward f frect0),
          info.min_y + info.x_drift ≤ q.2.min_y + q.2.x_drift)
    ∧ (moveFocus nodes none (some fid) f = none ↔
        candidatesFor
          (nodes.map (fun p => (p.1, transformRectDownward f p.2))) fid
          (transformRectDownward f frect0) = []) := by
  have hmf : moveFocus nodes none (some fid) f =
      (minByFirst (fun a b => cmpInfo a.2 b.2)
        (candidatesFor
          (nodes.map (fun p => (p.1, transformRectDownward f p.2))) fid
          (transformRectDownward f frect0))).map (fun p => p.1) := by
    simp only [moveFocus, hlook]
  set cands := candidatesFor
    (nodes.map (fun p => (p.1, transformRectDownward f p.2))) fid
    (transformRectDownward f frect0) with hcands
  have hsorted : ∀ p ∈ cands, p.2.min_y ≤ p.2.max_y := by
    apply candidatesFor_y_sorted
    intro q hq
    obtain ⟨a, _, ha⟩ := List.mem_map.mp hq
    rw [← ha]
    exact transformRectDownward_y_sorted f a.2
  have hcongr : minByFirst (fun a b => cmpInfo a.2 b.2) cands =
      minByFirst (fun a b =>
        qcmp (a.2.min_y + a.2.x_drift) (b.2.min_y + b.2.x_drift)) cands :=
    minByFirst_congr _ _ cands (fun a ha b hb =>
      cmpInfo_eq_keyed (hsorted a ha) (hsorted b hb))
  rw [hcongr] at hmf
  constructor
  · intro tid htid
    rw [hmf] at htid
    obtain ⟨m, hm, hm1⟩ := Option.map_eq_some'.mp htid
    have := minByFirst_min (fun p => p.2.min_y + p.2.x_drift) (· ≤ ·) qcmp
      (fun x => le_refl x) (fun x y z => le_trans)
      (fun a b h => le_of_lt ((qcmp_eq_lt_iff a b).mp h))
      (fun a b h => (qcmp_ne_lt_iff a b).mp h) cands m hm
    refine ⟨m.2, ?_, this.2⟩
    have : (tid, m.2) = m := by rw [← hm1]
    rw [this]
    exact this ▸ (minByFirst_min (fun p => p.2.min_y + p.2.x_drift) (· ≤ ·)
      qcmp (fun x => le_refl x) (fun x y z => le_trans)
      (fun a b h => le_of_lt ((qcmp_eq_lt_iff a b).mp h))
      (fun a b h => (qcmp_ne_lt_iff a b).mp h) cands m hm).1
  · rw [hmf, Option.map_eq_none', minByFirst_none_iff]

/-- Concrete layout refuting the C2 claim.  The focused node 0 is a wide
rectangle from x = 0 to x = 10; node 1 sits just to its right with a
horizontal near-gap of 1; node 2 sits right below it with x_drift 0. -/
def demoFocusRect : Rect := ⟨⟨0, 0⟩, ⟨10, 1⟩⟩

/-- Candidate to the right of demoFocusRect, near gap 1, far-edge
distance 12. -/
def demoRightRect : Rect := ⟨⟨11, 1⟩, ⟨12, 2⟩⟩

/-- Candidate directly below demoFocusRect, x_drift 0, min_y 2. -/
def demoBelowRect : Rect := ⟨⟨0, 3⟩, ⟨10, 4⟩⟩

/-- The three-node registry of the C2 counterexample. -/
def demoNodes : List (Nat × Rect) :=
  [(0, demoFocusRect), (1, demoRightRect), (2, demoBelowRect)]

/-- C2, counterexample.  With node 0 focused and moving down, the code
selects node 2 (far-edge drift makes node 1's key 0 + 12 = 12, node 2's
key 2 + 0 = 2), while the resolver described by the claim - x_drift being
the smallest horizontal gap - would select node 1 (keys 0 + 1 = 1 versus
2).  So the claim's reading of x_drift does not describe the code. -/
theorem claim_C2_counterexample :
    moveFocus demoNodes none (some 0) downTransform = some 2 ∧
      moveFocusSpecDrift demoNodes none (some 0) downTransform = some 1 ∧
      (2 : Nat) ≠ 1 := by
  refine ⟨by decide, by decide, by decide⟩

/-- C2, witness for the amended theorem at the concrete demo layout. -/
theorem claim_C2_witness :
    ∃ info, (2, info) ∈ candidatesFor
        (demoNodes.map (fun p => (p.1, transformRectDownward downTransform p.2)))
        0 (transformRectDownward downTransform demoFocusRect) ∧
      ∀ q ∈ candidatesFor
          (demoNodes.map (fun p => (p.1, transformRectDownward downTransform p.2)))
          0 (transformRectDownward downTransform demoFocusRect),
        info.min_y + info.x_drift ≤ q.2.min_y + q.2.x_drift :=
  (claim_C2_amended demoNodes 0 demoFocusRect downTransform (by decide)).1
    2 (by decide)

/-- C4.  The claim as written fails on the code: with an empty registry
but a focused id reported by the toolkit, the resolver returns that id
(the "missing from the registry" path), not None (see the
counterexample).  Amended claim: focus resolution never panics on missing
state; if the registry is empty and no node is focused the resolver
returns no target (None), and whenever the currently-focused id is not
present in the registry - in particular whenever the registry is empty -
the resolver returns that same id unchanged rather than failing. -/
theorem claim_C4_amended :
    (∀ f : Pos → Pos, moveFocus [] none none f = none)
    ∧ (∀ (nodes : List (Nat × Rect)) (fid : Nat) (f : Pos → Pos),
        lookupRect nodes fid = none →
        moveFocus nodes none (some fid) f = some fid) := by
  constructor
  · intro f
    rfl
  · intro nodes fid f hlook
    simp only [moveFocus, hlook]

/-- C4, counterexample: an empty registry with focused id 7 resolves to
node 7 itself, not to None as the claim's first clause demands. -/
theorem claim_C4_counterexample :
    moveFocus [] none (some 7) downTransform = some 7 ∧
      some 7 ≠ (none : Option Nat) := by
  exact ⟨rfl, by decide⟩

/-- C4, witness for the amended theorem: empty registry with no focus
resolves to None for the down transform, and a focused id 7 that is
absent from a one-node registry is returned unchanged. -/
theorem claim_C4_witness :
    moveFocus [] none none downTransform = none ∧
      moveFocus [(1, demoBelowRect)] none (some 7) downTransform = some 7 :=
  ⟨claim_C4_amended.1 downTransform,
    claim_C4_amended.2 [(1, demoBelowRect)] 7 downTransform (by decide)⟩

theorem qcmp2_fst_const (c a b : ℤ) : qcmp2 (c, a) (c, b) = qcmp a b := by
  simp [qcmp2, qcmp_self]

theorem qcmp2_snd_const (c a b : ℤ) : qcmp2 (a, c) (b, c) = qcmp a b := by
  unfold qcmp2
  rcases h : qcmp a b with _ | _ | _ <;> simp [h, qcmp_self]

theorem rectKey_transform_left (r : Rect) :
    rectKey (transformRectDownward leftTransform r) =
      (-(max r.min.x r.max.x), -(max r.min.y r.max.y)) := by
  simp only [rectKey, transformRectDownward, leftTransform]
  split_ifs with h1 h2 h3 <;> simp only [Prod.mk.injEq] <;>
    exact ⟨by omega, by omega⟩

theorem rectKey_transform_up (r : Rect) :
    rectKey (transformRectDownward upTransform r) =
      (-(max r.min.y r.max.y), -(max r.min.x r.max.x)) := by
  simp only [rectKey, transformRectDownward, upTransform]
  split_ifs with h1 h2 h3 <;> simp only [Prod.mk.injEq] <;>
    exact ⟨by omega, by omega⟩

theorem rectKey_transform_right (r : Rect) :
    rectKey (transformRectDownward rightTransform r) =
      (min r.min.x r.max.x, min r.min.y r.max.y) := by
  simp only [rectKey, transformRectDownward, rightTransform]
  split_ifs with h1 h2 h3 <;> simp only [Prod.mk.injEq] <;>
    exact ⟨by omega, by omega⟩

theorem rectKey_transform_down (r : Rect) :
    rectKey (transformRectDownward downTransform r) =
      (min r.min.y r.max.y, min r.min.x r.max.x) := by
  simp only [rectKey, transformRectDownward, downTransform]
  split_ifs with h1 h2 h3 <;> simp only [Prod.mk.injEq] <;>
    exact ⟨by omega, by omega⟩

/-- The sort key a node gets in the "nothing is focused" branch, pulled
back through the rectangle transform. -/
def nodeNFKey (f : Pos → Pos) (p : Nat × Rect) : ℤ × ℤ :=
  rectKey (transformRectDownward f p.2)

theorem moveFocus_nofocus (nodes : List (Nat × Rect)) (f : Pos → Pos) :
    moveFocus nodes none none f =
      Option.map (fun p => p.1)
        (minByFirst (fun a b =>
          qcmp2 (nodeNFKey f a) (nodeNFKey f b)) nodes) := by
  simp only [moveFocus, List.map_map]
  rw [minByFirst_map, Option.map_map]
  rfl

/-- C3.  The four directional commands map onto the canonical downward
move through coordinate transforms: Down is the identity, Up negates both
axes, Left maps (x, y) to (-y, -x) and Right maps (x, y) to (y, x)
(transpose with negation, not rotation).  With nothing focused, the
resolver picks a registered node whose transformed rectangle has the
lexicographically smallest (top edge, then left edge).  In particular -
this being what the transpose buys over a rotation - on any column of
nodes sharing their horizontal extent, Left with nothing focused picks
the same node Up picks, and Right the same node Down picks. -/
theorem claim_C3 :
    (∀ p : Pos, upTransform p = ⟨-p.x, -p.y⟩)
    ∧ (∀ p : Pos, downTransform p = p)
    ∧ (∀ p : Pos, leftTransform p = ⟨-p.y, -p.x⟩)
    ∧ (∀ p : Pos, rightTransform p = ⟨p.y, p.x⟩)
    ∧ (∀ (nodes : List (Nat × Rect)) (f : Pos → Pos) (tid : Nat),
        moveFocus nodes none none f = some tid →
        ∃ r, (tid, r) ∈ nodes.map (fun p => (p.1, transformRectDownward f p.2)) ∧
          ∀ q ∈ nodes.map (fun p => (p.1, transformRectDownward f p.2)),
            lexLe (rectKey r) (rectKey q.2))
    ∧ (∀ (nodes : List (Nat × Rect)) (x0 x1 : ℤ),
        (∀ p ∈ nodes, p.2.min.x = x0 ∧ p.2.max.x = x1) →
        moveFocus nodes none none leftTransform =
            moveFocus nodes none none upTransform ∧
          moveFocus nodes none none rightTransform =
            moveFocus nodes none none downTransform) := by
  refine ⟨fun p => rfl, fun p => rfl, fun p => rfl, fun p => rfl, ?_, ?_⟩
  · intro nodes f tid h
    rw [moveFocus_nofocus] at h
    obtain ⟨m, hm, hm1⟩ := Option.map_eq_some'.mp h
    obtain ⟨hmem, hmin⟩ := minByFirst_min (nodeNFKey f) lexLe qcmp2
      (fun x => lexLe_refl x) (fun x y z => lexLe_trans)
      (fun a b hab => qcmp2_lt_lexLe hab)
      (fun a b hab => qcmp2_ne_lt_lexLe hab) nodes m hm
    refine ⟨transformRectDownward f m.2, ?_, ?_⟩
    · exact List.mem_map.mpr ⟨m, hmem, by rw [← hm1]⟩
    · intro q hq
      obtain ⟨a, ha, ha1⟩ := List.mem_map.mp hq
      rw [← ha1]
      exact hmin a ha
  · intro nodes x0 x1 hx
    constructor
    · rw [moveFocus_nofocus nodes leftTransform,
        moveFocus_nofocus nodes upTransform]
      congr 1
      apply minByFirst_congr
      intro a ha b hb
      obtain ⟨ha1, ha2⟩ := hx a ha
      obtain ⟨hb1, hb2⟩ := hx b hb
      simp only [nodeNFKey, rectKey_transform_left, rectKey_transform_up,
        ha1, ha2, hb1, hb2, qcmp2_fst_const, qcmp2_snd_const]
    · rw [moveFocus_nofocus nodes rightTransform,
        moveFocus_nofocus nodes downTransform]
      congr 1
      apply minByFirst_congr
      intro a ha b hb
      obtain ⟨ha1, ha2⟩ := hx a ha
      obtain ⟨hb1, hb2⟩ := hx b hb
      simp only [nodeNFKey, rectKey_transform_right, rectKey_transform_down,
        ha1, ha2, hb1, hb2, qcmp2_fst_const, qcmp2_snd_const]

/-- C3, witness: on a concrete two-node column sharing x extent 0..10,
Left with nothing focused picks the same node as Up and Right the same as
Down, and the no-focus pick for Down is node 0 together with its
minimality certificate. -/
theorem claim_C3_witness :
    (moveFocus [(0, demoFocusRect), (2, demoBelowRect)] none none
          leftTransform =
        moveFocus [(0, demoFocusRect), (2, demoBelowRect)] none none
          upTransform ∧
      moveFocus [(0, demoFocusRect), (2, demoBelowRect)] none none
          rightTransform =
        moveFocus [(0, demoFocusRect), (2, demoBelowRect)] none none
          downTransform)
    ∧ ∃ r, (0, r) ∈ [(0, demoFocusRect), (2, demoBelowRect)].map
          (fun p => (p.1, transformRectDownward downTransform p.2)) ∧
        ∀ q ∈ [(0, demoFocusRect), (2, demoBelowRect)].map
            (fun p => (p.1, transformRectDownward downTransform p.2)),
          lexLe (rectKey r) (rectKey q.2) :=
  ⟨claim_C3.2.2.2.2.2 [(0, demoFocusRect), (2, demoBelowRect)] 0 10
      (by decide),
    claim_C3.2.2.2.2.1 [(0, demoFocusRect), (2, demoBelowRect)]
      downTransform 0 (by decide)⟩

/-! Lemmas about the input bitmask. -/

theorem getBit_zero (i : Fin 6) : InputBits.zero.getBit i = false := by
  fin_cases i <;> rfl

theorem getBit_andNot (i : Fin 6) (a b : InputBits) :
    (a.andNot b).getBit i = (a.getBit i && !b.getBit i) := by
  fin_cases i <;> rfl

theorem ne_zero_of_getBit (i : Fin 6) (a : InputBits)
    (h : a.getBit i = true) : a ≠ InputBits.zero := by
  intro he
  rw [he, getBit_zero] at h
  exact Bool.noConfusion h

/-- C1.  The claim as written fails on the code (see the counterexample):
a bit that stays asserted is throttled by the repeat timer only while the
raw bitmask is unchanged; the moment any other bit changes, prepare takes
the edge branch, masks out every previously-asserted bit and resets the
timer.  Amended claim: a command bit newly asserted relative to the
previous frame's raw bits is immediately present in the effective bits
and resets the next-allowed timestamp to now + first_delay_secs; a bit
that was already asserted last frame and remains asserted is present in
the effective bits if and only if the raw bitmask is identical to the
previous frame's and now >= next_allowed, in which case next_allowed is
advanced to now + repeat_interval_secs; otherwise (timer not yet due, or
any other bit changed) it is suppressed for that frame. -/
theorem claim_C1_amended (prev : InputBits) (next_nav : ℤ)
    (input : InputBits) (fd ri now : ℤ) (i : Fin 6) :
    (input.getBit i = true → prev.getBit i = false →
      (timingTick prev next_nav input fd ri now).1.getBit i = true ∧
        (timingTick prev next_nav input fd ri now).2 = now + fd)
    ∧ (input.getBit i = true → prev.getBit i = true →
      (((timingTick prev next_nav input fd ri now).1.getBit i = true ↔
          (prev = input ∧ next_nav ≤ now))
        ∧ (prev = input → next_nav ≤ now →
            (timingTick prev next_nav input fd ri now).2 = now + ri))) := by
  constructor
  · intro h1 h2
    have hz : input ≠ InputBits.zero := ne_zero_of_getBit i input h1
    have hne : prev ≠ input := by
      intro he
      rw [he, h1] at h2
      exact Bool.noConfusion h2
    unfold timingTick
    rw [if_neg hz, if_pos hne]
    exact ⟨by rw [getBit_andNot, h1, h2]; rfl, rfl⟩
  · intro h1 h2
    have hz : input ≠ InputBits.zero := ne_zero_of_getBit i input h1
    unfold timingTick
    rw [if_neg hz]
    by_cases hpe : prev = input
    · rw [if_neg (not_not_intro hpe)]
      by_cases ht : now < next_nav
      · rw [if_pos ht]
        constructor
        · rw [getBit_zero]
          constructor
          · intro hf
            exact Bool.noConfusion hf
          · rintro ⟨-, hle⟩
            omega
        · intro _ hle
          omega
      · rw [if_neg ht]
        refine ⟨⟨fun _ => ⟨hpe, by omega⟩, fun _ => h1⟩, fun _ _ => rfl⟩
    · rw [if_pos hpe]
      constructor
      · rw [getBit_andNot, h1, h2]
        simp only [Bool.not_true, Bool.and_false]
        constructor
        · intro hf
          exact Bool.noConfusion hf
        · rintro ⟨he, -⟩
          exact absurd he hpe
      · intro he
        exact absurd he hpe

/-- C1, counterexample: with down held from the previous frame (prev mask
= down only), pressing up as well (raw mask = up and down) at a frame
whose time 10 is past the next-allowed timestamp 5 leaves the down bit
out of the effective bits, although the claim demands that a held bit be
effective exactly when now >= next_allowed. -/
theorem claim_C1_counterexample :
    ({ up := true, down := true } : InputBits).getBit 1 = true ∧
      ({ down := true } : InputBits).getBit 1 = true ∧
      (5 : ℤ) ≤ 10 ∧
      (timingTick { down := true } 5 { up := true, down := true } 6 1
          10).1.getBit 1 = false := by
  refine ⟨rfl, rfl, by decide, rfl⟩

/-- C1, witness at concrete inputs: an up press from a released state is
immediately effective and arms the 10 + 6 timestamp; a held-unchanged up
bit at time 10 with deadline 5 is effective and re-arms to 10 + 1. -/
theorem claim_C1_witness :
    ((timingTick InputBits.zero 0 { up := true } 6 1 10).1.getBit 0 = true ∧
      (timingTick InputBits.zero 0 { up := true } 6 1 10).2 = 10 + 6)
    ∧ (((timingTick { up := true } 5 { up := true } 6 1 10).1.getBit 0 = true ↔
        ({ up := true } : InputBits) = { up := true } ∧ (5 : ℤ) ≤ 10)
      ∧ (({ up := true } : InputBits) = { up := true } → (5 : ℤ) ≤ 10 →
        (timingTick { up := true } 5 { up := true } 6 1 10).2 = 10 + 1)) :=
  ⟨(claim_C1_amended InputBits.zero 0 { up := true } 6 1 10 0).1 rfl rfl,
    (claim_C1_amended { up := true } 5 { up := true } 6 1 10 0).2 rfl rfl⟩

/-- C10.  When both opposite directional commands of one axis are
effective in the same frame, the per-axis dispatch of prepare performs no
focus move for that axis: the vertical stage yields no move when up and
down are both set, and the horizontal stage passes its incoming move
through unchanged when left and right are both set. -/
theorem claim_C10 (eff : InputBits) (nodes : List (Nat × Rect))
    (memory_focused : Option Nat) (move_focus_to : Option Nat) :
    (eff.up = true → eff.down = true →
      verticalFocusDispatch eff nodes memory_focused = none)
    ∧ (eff.left = true → eff.right = true →
      horizontalFocusDispatch eff nodes memory_focused move_focus_to =
        move_focus_to) := by
  constructor
  · intro h1 h2
    simp only [verticalFocusDispatch, h1, h2]
  · intro h1 h2
    simp only [horizontalFocusDispatch, h1, h2]

/-- C10, witness: simultaneous up and down on the demo registry move
nothing, and simultaneous left and right leave an incoming move request
(node 3) unchanged. -/
theorem claim_C10_witness :
    verticalFocusDispatch { up := true, down := true } demoNodes none =
        none
    ∧ horizontalFocusDispatch { left := true, right := true } demoNodes
        none (some 3) = some 3 :=
  ⟨(claim_C10 { up := true, down := true } demoNodes none (some 3)).1
      rfl rfl,
    (claim_C10 { left := true, right := true } demoNodes none (some 3)).2
      rfl rfl⟩

/-- C5.  The claim as written fails on the code (see the counterexample):
releasing only the triggering class while the opposite activation class
asserts in the same frame does not produce a release - the machine goes
to Invalidated.  Amended claim: from NodeHeld the state transitions to
NodeHoldReleased exactly when both activation bits (Click and User) are
clear while the toolkit focus is still on the held node; if both bits are
clear but focus moved elsewhere (or away), the state goes directly to
Idle and no release fires; NodeHoldReleased is a one-frame pulse that
always returns to Idle on the following frame. -/
theorem claim_C5_amended (id : Nat) (is_user_action : Bool)
    (ua pua : Option Nat) (input : InputBits) (focus : Option Nat) :
    (input.click = false → input.user = false →
      stepPendingRelease (.NodeHeld id is_user_action ua) input pua focus =
        if focus = some id then .NodeHoldReleased id (ua.or pua) else .Idle)
    ∧ (∀ id2 ua2,
        stepPendingRelease (.NodeHeld id is_user_action ua) input pua focus =
          .NodeHoldReleased id2 ua2 →
        input.click = false ∧ input.user = false ∧ focus = some id ∧
          id2 = id)
    ∧ stepPendingRelease (.NodeHoldReleased id ua) input pua focus =
        .Idle := by
  refine ⟨?_, ?_, rfl⟩
  · intro h1 h2
    simp only [stepPendingRelease, h1, h2]
  · intro id2 ua2 h
    cases h1 : input.click <;> cases h2 : input.user <;>
        simp only [stepPendingRelease, h1, h2] at h
    · split_ifs at h with hf
      rw [PendingReleaseState.NodeHoldReleased.injEq] at h
      exact ⟨rfl, rfl, hf, h.1.symm⟩
    · split_ifs at h
    · split_ifs at h
    · simp at h

/-- C5, counterexample: a click-triggered hold on node 3 whose frame
clears the click bit but asserts the user bit while focus is still on
node 3 goes to Invalidated, not to the NodeHoldReleased release the claim
demands from "the triggering command bit clears while focus is on the
node". -/
theorem claim_C5_counterexample :
    stepPendingRelease (.NodeHeld 3 false none) { user := true } none
        (some 3) = .Invalidated false ∧
      ({ user := true } : InputBits).click = false ∧
      PendingReleaseState.Invalidated false ≠ .NodeHoldReleased 3 none := by
  refine ⟨rfl, rfl, by decide⟩

/-- C5, witness: with both bits clear and focus still on node 3, the hold
on node 3 with pending payload 4 releases; the release state certifies
both bits clear and the matching focus; and the released state decays to
Idle. -/
theorem claim_C5_witness :
    (stepPendingRelease (.NodeHeld 3 false (some 4)) InputBits.zero none
        (some 3) =
      if (some 3 : Option Nat) = some 3 then
        PendingReleaseState.NodeHoldReleased 3 ((some 4).or none)
      else .Idle)
    ∧ (InputBits.zero.click = false ∧ InputBits.zero.user = false ∧
        (some 3 : Option Nat) = some 3 ∧ 3 = 3)
    ∧ stepPendingRelease (.NodeHoldReleased 3 (some 4)) InputBits.zero
        none (some 3) = .Idle :=
  ⟨(claim_C5_amended 3 false (some 4) none InputBits.zero (some 3)).1
      rfl rfl,
    (claim_C5_amended 3 false (some 4) none InputBits.zero (some 3)).2.1
      3 (some 4) (by decide),
    (claim_C5_amended 3 false (some 4) none InputBits.zero (some 3)).2.2⟩

/-- C6.  The claim as written fails on the code (see the counterexample):
leaving Invalidated is gated on the Click bit only, so an invalidation
whose trigger involved the user-action bit returns to Idle as soon as
Click is clear, even while the user-action key is still held.  Amended
claim: Invalidated with the cooldown flag set persists for exactly one
frame regardless of input, clearing the flag; after the cooldown the
machine returns to Idle exactly once the Click command bit is clear, and
stays Invalidated while Click remains asserted - the user-action bit does
not keep it in Invalidated. -/
theorem claim_C6_amended (input : InputBits) (pua : Option Nat)
    (focus : Option Nat) :
    stepPendingRelease (.Invalidated true) input pua focus =
        .Invalidated false
    ∧ stepPendingRelease (.Invalidated false) input pua focus =
        (if input.click then .Invalidated false else .Idle) := by
  refine ⟨rfl, ?_⟩
  simp only [stepPendingRelease]
  cases h : input.click <;> simp [h]

/-- C6, counterexample: a click-and-user frame from Idle produces an
invalidation whose trigger includes the user-action bit, yet on the next
frame with the user bit still asserted (and click clear) the machine
returns to Idle, where the claim demands it stay Invalidated until the
triggering bit clears. -/
theorem claim_C6_counterexample :
    stepPendingRelease .Idle { click := true, user := true } (some 9)
        (some 3) = .Invalidated false ∧
      stepPendingRelease (.Invalidated false) { user := true } (some 9)
        (some 3) = .Idle ∧
      ({ user := true } : InputBits).user = true ∧
      PendingReleaseState.Idle ≠ .Invalidated false := by
  refine ⟨rfl, rfl, rfl, by decide⟩

/-- A navigation state in the middle of a user-action hold: the user key
has been down since last frame (prev mask = user), the repeat timestamp
is armed at 5, and the payload 7 is stored. -/
def c9State : KbgpNavigationState :=
  { prev_input := { user := true }
    pending_release_state := .GloballyHeld (some 7)
    next_navigation := 5
    user_action := some 7 }

/-- C9.  The claim as written fails on the code (see the counterexample):
clear-input empties the stored user action and invalidates the
hold/release machine, but it does not touch the repeat timer, so if the
next frame arrives at or past the next-allowed timestamp while the bound
key is still held, the repeat branch re-fires the user action and the
query returns it again.  Amended claim: after clear-input is called
during a frame's UI pass, the very next frame's query for the same user
action returns None while the physical key bound to it is still held,
provided that frame's time is still earlier than the stored next-allowed
timestamp; once the repeat timer is due, the held key re-fires the user
action despite the clear. -/
theorem claim_C9_amended (s : KbgpNavigationState)
    (nodes : List (Nat × Rect)) (memory_focused : Option Nat)
    (input : InputBits) (handle_ua : Option Nat) (fd ri now : ℤ)
    (hheld : input.user = true) (hprev : s.prev_input.user = true)
    (htime : now < s.next_navigation) :
    kbgpUserAction
      ((kbgpClearInput s).prepare nodes memory_focused input handle_ua
        fd ri now).state = none := by
  have hz : input ≠ InputBits.zero := by
    intro he
    rw [he] at hheld
    exact Bool.noConfusion hheld
  show (if (timingTick s.prev_input s.next_navigation input fd ri now).1.user
      then handle_ua else none) = none
  by_cases hpe : s.prev_input = input
  · unfold timingTick
    rw [if_neg hz, if_neg (not_not_intro hpe), if_pos htime]
    rfl
  · unfold timingTick
    rw [if_neg hz, if_pos hpe]
    simp [InputBits.andNot, hprev]

/-- C9, counterexample: clear-input during a user-action hold empties the
stored action (the same frame's query is None), yet the very next frame -
arriving at time 10, past the armed timestamp 5, with the user key still
held so the raw mask is unchanged - re-fires and the query returns the
payload 7 again instead of the None the claim guarantees. -/
theorem claim_C9_counterexample :
    kbgpUserAction (kbgpClearInput c9State) = none ∧
      (kbgpClearInput c9State).prev_input = ({ user := true } : InputBits) ∧
      kbgpUserAction
        ((kbgpClearInput c9State).prepare [] none { user := true } (some 7)
          6 1 10).state = some 7 := by
  refine ⟨rfl, rfl, rfl⟩

/-- C9, witness: the same cleared state queried on a next frame that
arrives at time 4, before the armed timestamp 5, with the user key still
held, yields None. -/
theorem claim_C9_witness :
    kbgpUserAction
      ((kbgpClearInput c9State).prepare [] none { user := true } (some 7)
        6 1 4).state = none :=
  claim_C9_amended c9State [] none { user := true } (some 7) 6 1 4
    rfl rfl (by decide)

/-- C7.  During pending-input capture: the first prepare tick after entry
turns the whole currently-pressed set into the ignored baseline and
reports no candidate; every later tick shrinks the ignored set to the
inputs still pressed and reports as candidates exactly the pressed inputs
outside the shrunk ignored set; consequently an input ignored at entry
counts again once it has been released for a frame and then re-pressed. -/
theorem claim_C7 :
    (∀ (id : Nat) (current : List KbgpInput),
      ((KbgpPendingInputState.new id).prepare current).ignored_input =
          some current ∧
        ((KbgpPendingInputState.new id).prepare current).input_this_frame =
          [])
    ∧ (∀ (s : KbgpPendingInputState) (ig current : List KbgpInput),
        s.ignored_input = some ig →
        ((s.prepare current).ignored_input =
            some (ig.filter (fun i => decide (i ∈ current))) ∧
          ∀ x, x ∈ (s.prepare current).input_this_frame ↔
            x ∈ current ∧
              ¬ x ∈ ig.filter (fun i => decide (i ∈ current))))
    ∧ (∀ (s : KbgpPendingInputState) (ig : List KbgpInput) (x : KbgpInput)
        (current1 current2 : List KbgpInput),
        s.ignored_input = some ig →
        ¬ x ∈ current1 → x ∈ current2 →
        x ∈ ((s.prepare current1).prepare current2).input_this_frame) := by
  refine ⟨?_, ?_, ?_⟩
  · intro id current
    exact ⟨rfl, rfl⟩
  · intro s ig current hig
    constructor
    · simp only [KbgpPendingInputState.prepare, hig]
    · intro x
      simp only [KbgpPendingInputState.prepare, hig]
      simp only [List.mem_filter, decide_eq_true_eq]
  · intro s ig x current1 current2 hig hx1 hx2
    simp only [KbgpPendingInputState.prepare, hig]
    simp only [List.mem_filter, decide_eq_true_eq]
    tauto

/-- C7, witness: a capture entered while key 1 is held ignores it on the
first tick and reports nothing; on a later tick with keys 1 and 2 held,
key 2 (and only key 2) is a candidate; and after a tick in which key 1
was released, re-pressing key 1 makes it a candidate. -/
theorem claim_C7_witness :
    (((KbgpPendingInputState.new 0).prepare
          [KbgpInput.Keyboard 1]).ignored_input =
        some [KbgpInput.Keyboard 1] ∧
      ((KbgpPendingInputState.new 0).prepare
          [KbgpInput.Keyboard 1]).input_this_frame = [])
    ∧ (KbgpInput.Keyboard 2 ∈
        (((KbgpPendingInputState.new 0).prepare [KbgpInput.Keyboard 1]).prepare
          [KbgpInput.Keyboard 1, KbgpInput.Keyboard 2]).input_this_frame ↔
        KbgpInput.Keyboard 2 ∈ [KbgpInput.Keyboard 1, KbgpInput.Keyboard 2] ∧
          ¬ KbgpInput.Keyboard 2 ∈
            [KbgpInput.Keyboard 1].filter (fun i =>
              decide (i ∈ [KbgpInput.Keyboard 1, KbgpInput.Keyboard 2])))
    ∧ KbgpInput.Keyboard 1 ∈
        ((((KbgpPendingInputState.new 0).prepare
            [KbgpInput.Keyboard 1]).prepare []).prepare
          [KbgpInput.Keyboard 1]).input_this_frame :=
  ⟨claim_C7.1 0 [KbgpInput.Keyboard 1],
    ((claim_C7.2.1
        ((KbgpPendingInputState.new 0).prepare [KbgpInput.Keyboard 1])
        [KbgpInput.Keyboard 1]
        [KbgpInput.Keyboard 1, KbgpInput.Keyboard 2] rfl).2
      (KbgpInput.Keyboard 2)),
    claim_C7.2.2
      ((KbgpPendingInputState.new 0).prepare [KbgpInput.Keyboard 1])
      [KbgpInput.Keyboard 1] (KbgpInput.Keyboard 1) [] [KbgpInput.Keyboard 1]
      rfl (by decide) (by decide)⟩

/-! Lemmas about chord-capture pole eviction. -/

theorem mem_setInsert (s : List KbgpInput) (y x : KbgpInput) :
    x ∈ setInsert s y ↔ x = y ∨ x ∈ s := by
  unfold setInsert
  split_ifs with hy
  · constructor
    · exact fun h => Or.inr h
    · rintro (rfl | h)
      · exact hy
      · exact h
  · simp [List.mem_cons]

theorem mem_setRemove (s : List KbgpInput) (y x : KbgpInput) :
    x ∈ setRemove s y ↔ x ∈ s ∧ x ≠ y := by
  unfold setRemove
  simp [List.mem_filter]

theorem oppositeInput_ne_self (x : KbgpInput) : oppositeInput x ≠ some x := by
  cases x <;> simp [oppositeInput]

theorem oppositeInput_symm {x y : KbgpInput} (h : oppositeInput x = some y) :
    oppositeInput y = some x := by
  cases x <;> simp only [oppositeInput, Option.some.injEq,
    reduceCtorEq] at h <;> subst h <;> rfl

/-- The per-input eviction of process_new_input, folded into a single
match on the opposite pole. -/
theorem processNewInput_evict_eq (received : List KbgpInput)
    (input : KbgpInput) :
    (match input with
      | KbgpInput.GamepadAxisPositive entity gamepad_axis =>
        setRemove received (.GamepadAxisNegative entity gamepad_axis)
      | KbgpInput.GamepadAxisNegative entity gamepad_axis =>
        setRemove received (.GamepadAxisPositive entity gamepad_axis)
      | KbgpInput.MouseWheelUp => setRemove received .MouseWheelDown
      | KbgpInput.MouseWheelDown => setRemove received .MouseWheelUp
      | KbgpInput.MouseWheelLeft => setRemove received .MouseWheelRight
      | KbgpInput.MouseWheelRight => setRemove received .MouseWheelLeft
      | _ => received) =
    (match oppositeInput input with
      | some o => setRemove received o
      | none => received) := by
  cases input <;> rfl

theorem step_preserves_noOppositePoles (received : List KbgpInput)
    (input : KbgpInput) (h : noOppositePoles received) :
    noOppositePoles (setInsert
      (match oppositeInput input with
        | some o => setRemove received o
        | none => received) input) := by
  rcases ho : oppositeInput input with _ | o
  · intro x hx y hy hxy
    dsimp only at hx hy
    rcases (mem_setInsert _ _ _).mp hx with rfl | hx'
    · rw [hxy] at ho
      exact Option.noConfusion ho
    · rcases (mem_setInsert _ _ _).mp hy with rfl | hy'
      · have := oppositeInput_symm hxy
        rw [ho] at this
        exact Option.noConfusion this
      · exact h x hx' y hy' hxy
  · intro x hx y hy hxy
    dsimp only at hx hy
    rcases (mem_setInsert _ _ _).mp hx with rfl | hx'
    · rw [hxy] at ho
      rw [Option.some.injEq] at ho
      rcases (mem_setInsert _ _ _).mp hy with rfl | hy'
      · exact oppositeInput_ne_self y hxy
      · exact ((mem_setRemove _ _ _).mp hy').2 ho
    · obtain ⟨hxr, hxo⟩ := (mem_setRemove _ _ _).mp hx'
      rcases (mem_setInsert _ _ _).mp hy with rfl | hy'
      · have hsymm := oppositeInput_symm hxy
        rw [ho, Option.some.injEq] at hsymm
        exact hxo hsymm.symm
      · obtain ⟨hyr, _⟩ := (mem_setRemove _ _ _).mp hy'
        exact h x hxr y hyr hxy

theorem processNewInput_fold_preserves
    (should_add : List KbgpInput → List KbgpInput → KbgpInput → Bool)
    (itf : List KbgpInput) :
    ∀ (l acc : List KbgpInput), noOppositePoles acc →
      noOppositePoles (l.foldl (fun received input =>
        if should_add itf received input then
          setInsert
            (match input with
              | KbgpInput.GamepadAxisPositive entity gamepad_axis =>
                setRemove received (.GamepadAxisNegative entity gamepad_axis)
              | KbgpInput.GamepadAxisNegative entity gamepad_axis =>
                setRemove received (.GamepadAxisPositive entity gamepad_axis)
              | KbgpInput.MouseWheelUp => setRemove received .MouseWheelDown
              | KbgpInput.MouseWheelDown => setRemove received .MouseWheelUp
              | KbgpInput.MouseWheelLeft => setRemove received .MouseWheelRight
              | KbgpInput.MouseWheelRight => setRemove received .MouseWheelLeft
              | _ => received) input
        else received) acc) := by
  intro l
  induction l with
  | nil => exact fun acc h => h
  | cons x xs ih =>
    intro acc h
    rw [List.foldl_cons]
    apply ih
    by_cases hsa : should_add itf acc x
    · rw [if_pos hsa, processNewInput_evict_eq]
      exact step_preserves_noOppositePoles acc x h
    · rw [if_neg hsa]
      exact h

/-- Capture state holding a freshly accepted positive pole of axis 2 of
gamepad 1, with the negative pole of the same axis pressed this frame. -/
def c8State : KbgpPendingInputState :=
  { acceptor_id := 0
    input_this_frame := [KbgpInput.GamepadAxisNegative 1 2]
    ignored_input := some []
    received_input := [KbgpInput.GamepadAxisPositive 1 2] }

/-- C8.  The received set of a chord capture never holds an input
together with its opposite pole (positive versus negative pole of the
same axis of the same gamepad, or opposite mouse-wheel directions):
process_new_input evicts the opposite pole before inserting, for any
acceptance predicate, so pole-consistency is an invariant; concretely,
accepting a positive axis pole and then its negative pole leaves only the
negative pole in the set. -/
theorem claim_C8 :
    (∀ (s : KbgpPendingInputState)
        (should_add : List KbgpInput → List KbgpInput → KbgpInput → Bool),
      noOppositePoles s.received_input →
      noOppositePoles (s.process_new_input should_add).received_input)
    ∧ (c8State.process_new_input (fun _ _ _ => true)).received_input =
        [KbgpInput.GamepadAxisNegative 1 2] := by
  constructor
  · intro s should_add h
    exact processNewInput_fold_preserves should_add s.input_this_frame
      s.input_this_frame s.received_input h
  · rfl

/-- C8, witness: the invariant applied to the concrete capture state -
its received set, a lone positive pole, is pole-consistent, and stays so
through a frame that accepts the opposite pole. -/
theorem claim_C8_witness :
    noOppositePoles
      (c8State.process_new_input (fun _ _ _ => true)).received_input :=
  claim_C8.1 c8State (fun _ _ _ => true) (by decide)

end KbgpSpec
